import Mathlib

/-!
Shallow embedding of the Sentinel fact-consolidation pipeline
(repository thieulong/Sentinel, package sentinel) in Lean 4, together
with theorems settling the specification claims about it.

Conventions of the embedding:
* Python strings are Lean strings (lists of characters); the ASCII
  fragments of the Python character predicates (str.isalnum, str.isdigit,
  str.upper, str.lower, str.strip) are modelled explicitly below.
* External collaborators (the Neo4j store, the language-model service,
  hashlib.sha1, json.loads, datetime.now) are modelled as explicit inputs
  or function parameters; everything the repository itself computes is
  translated directly from the source.
-/

namespace Sentinel

/-- Lowercase ASCII letter test, the ASCII fragment of Python str.islower. -/
def pyIsLower (c : Char) : Bool := 97 ≤ c.toNat && c.toNat ≤ 122

/-- Uppercase ASCII letter test, the ASCII fragment of Python str.isupper. -/
def pyIsUpper (c : Char) : Bool := 65 ≤ c.toNat && c.toNat ≤ 90

/-- ASCII digit test, the ASCII fragment of Python str.isdigit. -/
def pyIsDigit (c : Char) : Bool := 48 ≤ c.toNat && c.toNat ≤ 57

/-- Alphanumeric test, the ASCII fragment of Python str.isalnum. -/
def pyIsAlnum (c : Char) : Bool := pyIsLower c || pyIsUpper c || pyIsDigit c

/-- Whitespace test, matching Python str.isspace and the regex class \s
on ASCII input. -/
def pyIsSpace (c : Char) : Bool :=
  c = ' ' || c = '\t' || c = '\n' || c = '\r' || c = '\x0b' || c = '\x0c'

/-- Character uppercasing, the ASCII fragment of Python str.upper. -/
def pyToUpper (c : Char) : Char :=
  if pyIsLower c then Char.ofNat (c.toNat - 32) else c

/-- Character lowercasing, the ASCII fragment of Python str.lower. -/
def pyToLower (c : Char) : Char :=
  if pyIsUpper c then Char.ofNat (c.toNat + 32) else c

/-- String uppercasing, Python str.upper (ASCII fragment). -/
def pyUpperStr (s : String) : String := ⟨s.data.map pyToUpper⟩

/-- String lowercasing, Python str.lower (ASCII fragment). -/
def pyLowerStr (s : String) : String := ⟨s.data.map pyToLower⟩

/-- Drop the characters satisfying p from both ends of a list; the core of
Python str.strip. -/
def stripEnds (p : Char → Bool) (l : List Char) : List Char :=
  ((l.dropWhile p).reverse.dropWhile p).reverse

/-- Python str.strip() with no argument: remove leading and trailing
whitespace. -/
def pyStripStr (s : String) : String := ⟨stripEnds pyIsSpace s.data⟩

theorem toNat_char_ofNat_of_lt {n : Nat} (h : n < 0xd800) :
    (Char.ofNat n).toNat = n := by
  have hv : n.isValidChar := Or.inl h
  rw [Char.ofNat, dif_pos hv]
  simp [Char.ofNatAux, Char.toNat, UInt32.toNat]

theorem pyIsLower_iff {c : Char} :
    pyIsLower c = true ↔ 97 ≤ c.toNat ∧ c.toNat ≤ 122 := by
  simp [pyIsLower]

theorem pyIsUpper_iff {c : Char} :
    pyIsUpper c = true ↔ 65 ≤ c.toNat ∧ c.toNat ≤ 90 := by
  simp [pyIsUpper]

theorem pyIsDigit_iff {c : Char} :
    pyIsDigit c = true ↔ 48 ≤ c.toNat ∧ c.toNat ≤ 57 := by
  simp [pyIsDigit]

theorem pyIsUpper_pyToUpper_of_lower {c : Char} (h : pyIsLower c = true) :
    pyIsUpper (pyToUpper c) = true := by
  have hb := pyIsLower_iff.mp h
  rw [pyToUpper, if_pos h, pyIsUpper_iff, toNat_char_ofNat_of_lt (by omega)]
  omega

theorem pyToUpper_eq_of_not_lower {c : Char} (h : pyIsLower c = false) :
    pyToUpper c = c := by
  rw [pyToUpper, if_neg (by simp [h])]

/-- After pyToUpper, an ASCII-alphanumeric character is an uppercase letter
or a digit. -/
theorem pyToUpper_alnum {c : Char} (h : pyIsAlnum c = true) :
    pyIsUpper (pyToUpper c) = true ∨ pyIsDigit (pyToUpper c) = true := by
  by_cases hl : pyIsLower c = true
  · exact Or.inl (pyIsUpper_pyToUpper_of_lower hl)
  · have hl' : pyIsLower c = false := by simpa using hl
    rw [pyToUpper_eq_of_not_lower hl']
    have h' : (pyIsLower c = true ∨ pyIsUpper c = true) ∨ pyIsDigit c = true := by
      simpa [pyIsAlnum, Bool.or_eq_true] using h
    rcases h' with h1 | h3
    rcases h1 with h1 | h2
    · exact absurd h1 (by simp [hl'])
    · exact Or.inl h2
    · exact Or.inr h3

theorem not_pyIsLower_pyToUpper (c : Char) : pyIsLower (pyToUpper c) = false := by
  by_cases hl : pyIsLower c = true
  · have hb := pyIsLower_iff.mp hl
    rw [pyToUpper, if_pos hl]
    rw [Bool.eq_false_iff]
    intro hcon
    have := pyIsLower_iff.mp hcon
    rw [toNat_char_ofNat_of_lt (by omega)] at this
    omega
  · have hl' : pyIsLower c = false := by simpa using hl
    rw [pyToUpper_eq_of_not_lower hl']
    exact hl'

/-! ## Canonicalizer: sentinel/utils.py, function norm -/

/-- Substitution step of norm: keep an alphanumeric character, turn any
other character into an underscore (the join/comprehension in utils.norm). -/
def normSubChar (c : Char) : Char := if pyIsAlnum c then c else '_'

/-- Default stage of utils.norm: Python falsy (empty) values fall back to
"node". -/
def normDefault (l : List Char) : List Char := if l = [] then "node".data else l

/-- Digit-prefix stage of utils.norm: a digit-leading identifier gets the
"id_" prefix. -/
def normIdPrefixStage (l : List Char) : List Char :=
  if pyIsDigit (l.headD 'x') then "id_".data ++ l else l

/-- List-level body of utils.norm. -/
def normChars (l : List Char) : List Char :=
  (normIdPrefixStage (normDefault ((normDefault l).map normSubChar))).take 60

/-- Translation of sentinel/utils.py norm: replace non-alphanumeric
characters with underscores, default empty input to "node", prefix digit-
leading results with "id_", truncate to 60 characters. -/
def norm (text : String) : String := ⟨normChars text.data⟩

theorem normDefault_ne_nil (l : List Char) : normDefault l ≠ [] := by
  unfold normDefault
  split
  · decide
  · assumption

theorem normIdPrefixStage_ne_nil {l : List Char} (h : l ≠ []) :
    normIdPrefixStage l ≠ [] := by
  unfold normIdPrefixStage
  split
  · simp
  · exact h

theorem normChars_ne_nil (l : List Char) : normChars l ≠ [] := by
  unfold normChars
  have h1 : normDefault ((normDefault l).map normSubChar) ≠ [] := normDefault_ne_nil _
  have h2 := normIdPrefixStage_ne_nil h1
  simp only [ne_eq, List.take_eq_nil_iff]
  simp [h2]

theorem mem_normDefault {c : Char} {l : List Char} (h : c ∈ normDefault l) :
    c ∈ l ∨ c ∈ "node".data := by
  unfold normDefault at h
  split at h
  · exact Or.inr h
  · exact Or.inl h

theorem mem_normChars_alnum_or_underscore {l : List Char} {c : Char}
    (hc : c ∈ normChars l) : pyIsAlnum c = true ∨ c = '_' := by
  have base : ∀ m : List Char, c ∈ m.map normSubChar →
      pyIsAlnum c = true ∨ c = '_' := by
    intro m hm
    rcases List.mem_map.mp hm with ⟨a, _, ha⟩
    by_cases h : pyIsAlnum a = true
    · left; rw [← ha]; simpa [normSubChar, h]
    · right; rw [← ha]; simp [normSubChar, h]
  have hnode : ∀ d ∈ "node".data, pyIsAlnum d = true ∨ d = '_' := by decide
  have hid : ∀ d ∈ "id_".data, pyIsAlnum d = true ∨ d = '_' := by decide
  have hc1 := List.mem_of_mem_take hc
  unfold normIdPrefixStage at hc1
  have hc2 : c ∈ normDefault ((normDefault l).map normSubChar) ∨ c ∈ "id_".data := by
    split at hc1
    · rcases List.mem_append.mp hc1 with h | h
      · exact Or.inr h
      · exact Or.inl h
    · exact Or.inl hc1
  rcases hc2 with hc3 | hc3
  · rcases mem_normDefault hc3 with h | h
    · exact base _ h
    · exact hnode c h
  · exact hid c hc3

theorem normChars_head_not_digit (l : List Char) :
    pyIsDigit ((normChars l).headD 'x') = false := by
  unfold normChars
  set m := normDefault ((normDefault l).map normSubChar) with hm
  have hmne : m ≠ [] := normDefault_ne_nil _
  unfold normIdPrefixStage
  split
  · rcases h60 : ("id_".data ++ m).take 60 with _ | ⟨c, rest⟩
    · decide
    · have : c = 'i' := by
        have := congrArg (fun t => t.headD 'x') h60
        simpa [List.headD, List.take_append_eq_append_take] using this.symm
      simp [h60, List.headD, this]
      decide
  · rename_i hnotdig
    rcases hmm : m with _ | ⟨c, rest⟩
    · exact absurd hmm hmne
    · rw [hmm] at hnotdig
      simp only [List.headD] at hnotdig
      simp [hmm, List.take, List.headD]
      simpa using hnotdig

theorem length_normChars_le (l : List Char) : (normChars l).length ≤ 60 := by
  unfold normChars
  simpa using List.length_take_le 60 _

theorem normSubChar_of_alnum_or_underscore {c : Char}
    (h : pyIsAlnum c = true ∨ c = '_') : normSubChar c = c := by
  rcases h with h | h
  · simp [normSubChar, h]
  · subst h; decide

theorem list_map_id_of_mem {α : Type} {f : α → α} :
    ∀ {m : List α}, (∀ c ∈ m, f c = c) → m.map f = m := by
  intro m h
  induction m with
  | nil => rfl
  | cons a t ih =>
    simp only [List.map_cons, h a (by simp)]
    rw [ih (fun c hc => h c (by simp [hc]))]

theorem normChars_idem (l : List Char) : normChars (normChars l) = normChars l := by
  have hne : normChars l ≠ [] := normChars_ne_nil l
  have hmap : (normChars l).map normSubChar = normChars l := by
    apply list_map_id_of_mem
    intro c hc
    exact normSubChar_of_alnum_or_underscore (mem_normChars_alnum_or_underscore hc)
  have e1 : normDefault (normChars l) = normChars l := by
    rw [normDefault, if_neg hne]
  have hnd : ¬ (pyIsDigit ((normChars l).headD 'x') = true) := by
    rw [normChars_head_not_digit l]
    exact Bool.false_ne_true
  have e2 : normIdPrefixStage (normChars l) = normChars l := by
    rw [normIdPrefixStage, if_neg hnd]
  calc normChars (normChars l)
      = (normIdPrefixStage (normDefault
          ((normDefault (normChars l)).map normSubChar))).take 60 := rfl
    _ = (normIdPrefixStage (normChars l)).take 60 := by rw [e1, hmap, e1]
    _ = (normChars l).take 60 := by rw [e2]
    _ = normChars l := List.take_of_length_le (length_normChars_le l)

/-- C4: norm (normalize_identifier) always yields a nonempty string of at
most 60 characters, made only of alphanumerics and underscores, never
starting with a digit, and is idempotent. -/
theorem norm_wellformed_and_idempotent (s : String) :
    norm s ≠ "" ∧
    (norm s).length ≤ 60 ∧
    (∀ c ∈ (norm s).data, pyIsAlnum c = true ∨ c = '_') ∧
    pyIsDigit ((norm s).data.headD 'x') = false ∧
    norm (norm s) = norm s := by
  refine ⟨?_, ?_, ?_, ?_, ?_⟩
  · intro h
    exact normChars_ne_nil s.data (by simpa [norm, String.ext_iff] using h)
  · simpa [norm, String.length] using length_normChars_le s.data
  · intro c hc
    exact mem_normChars_alnum_or_underscore (by simpa [norm] using hc)
  · simpa [norm] using normChars_head_not_digit s.data
  · simp [norm, normChars_idem]

/-- C4 witness: the well-formedness and idempotence of norm at a concrete
input, including the character-shape conjunct at the member 'h'. -/
theorem norm_wellformed_witness :
    norm "hello world!" ≠ "" ∧
    norm (norm "hello world!") = norm "hello world!" ∧
    (pyIsAlnum 'h' = true ∨ 'h' = '_') :=
  ⟨(norm_wellformed_and_idempotent "hello world!").1,
   (norm_wellformed_and_idempotent "hello world!").2.2.2.2,
   (norm_wellformed_and_idempotent "hello world!").2.2.1 'h' (by decide)⟩

/-- C5 counterexample: the claim says runs of non-alphanumerics collapse to
a single underscore, so that "a  b" yields "a_b"; in fact norm maps each
character separately and returns "a__b". -/
theorem norm_does_not_collapse_runs :
    norm "a  b" = "a__b" ∧ norm "a  b" ≠ "a_b" := by
  constructor
  · rfl
  · decide

/-- C5 amended: norm maps every non-alphanumeric character to its own
underscore, so a run of k non-alphanumerics yields exactly k underscores
(no collapsing); shown for an input of one alphanumeric non-digit
character, k spaces, and one alphanumeric character. -/
theorem norm_preserves_runs (a b : Char) (k : Nat)
    (ha : pyIsAlnum a = true) (had : pyIsDigit a = false)
    (hb : pyIsAlnum b = true) :
    norm ⟨a :: List.replicate k ' ' ++ [b]⟩ =
      ⟨(a :: List.replicate k '_' ++ [b]).take 60⟩ := by
  have hsp : normSubChar ' ' = '_' := by decide
  have hmap : (a :: List.replicate k ' ' ++ [b]).map normSubChar
      = a :: List.replicate k '_' ++ [b] := by
    simp only [List.map_append, List.map_cons, List.map_replicate, List.map_nil, hsp]
    rw [normSubChar_of_alnum_or_underscore (Or.inl ha),
      normSubChar_of_alnum_or_underscore (Or.inl hb)]
  have e1 : normDefault (a :: List.replicate k ' ' ++ [b])
      = a :: List.replicate k ' ' ++ [b] := by
    rw [normDefault, if_neg (by simp)]
  have e2 : normDefault (a :: List.replicate k '_' ++ [b])
      = a :: List.replicate k '_' ++ [b] := by
    rw [normDefault, if_neg (by simp)]
  have e3 : normIdPrefixStage (a :: List.replicate k '_' ++ [b])
      = a :: List.replicate k '_' ++ [b] := by
    rw [normIdPrefixStage, if_neg (by simp [List.headD, had])]
  apply congrArg String.mk
  show (normIdPrefixStage (normDefault
      ((normDefault (a :: List.replicate k ' ' ++ [b])).map normSubChar))).take 60 = _
  rw [e1, hmap, e2, e3]

/-! ## Canonicalizer: sentinel/extract.py, function normalize_relation -/

/-- Camel-case decomposition step of normalize_relation, the translation of
re.sub on the pattern ([a-z0-9])([A-Z]) with replacement \1_\2: scan left to
right, and between a lowercase-or-digit character and an uppercase character
insert an underscore, resuming after the matched pair. -/
def camelSub : List Char → List Char
  | [] => []
  | c1 :: rest =>
    match rest with
    | [] => [c1]
    | c2 :: rest2 =>
      if (pyIsLower c1 || pyIsDigit c1) && pyIsUpper c2 then
        c1 :: '_' :: c2 :: camelSub rest2
      else
        c1 :: camelSub (c2 :: rest2)

/-- One pass of Python str.replace applied to "__" -> "_": replace
non-overlapping occurrences left to right. -/
def replaceDD : List Char → List Char
  | [] => []
  | [c] => [c]
  | c1 :: c2 :: rest =>
    if c1 = '_' ∧ c2 = '_' then '_' :: replaceDD rest
    else c1 :: replaceDD (c2 :: rest)

/-- Test for an occurrence of the substring "__", the condition of the
while loop in normalize_relation (Python: "__" in r). -/
def hasDD (l : List Char) : Bool := decide (['_', '_'] <:+: l)

/-- Fuel-indexed unfolding of the loop: while "__" in r, replace "__" by
"_". Each iteration shortens the list, so length-many iterations always
reach the fixed point (hasDD_collapseUnderscores below). -/
def collapseLoopFuel : Nat → List Char → List Char
  | 0, l => l
  | n + 1, l => if hasDD l then collapseLoopFuel n (replaceDD l) else l

/-- The while loop of normalize_relation collapsing doubled underscores. -/
def collapseUnderscores (l : List Char) : List Char := collapseLoopFuel l.length l

/-- Substitution and uppercasing stage of normalize_relation:
"".join(ch if ch.isalnum() else "_" for ch in r).upper(). -/
def relSubUpper (l : List Char) : List Char := (l.map normSubChar).map pyToUpper

/-- Composition of the post-strip stages of normalize_relation. -/
def relCore (l : List Char) : List Char :=
  stripEnds (fun c => c == '_') (collapseUnderscores (relSubUpper (camelSub l)))

/-- Translation of sentinel/extract.py normalize_relation: strip, default
empty to RELATED_TO, decompose camel case, map non-alphanumerics to
underscores, uppercase, collapse doubled underscores, strip underscores,
default empty result to RELATED_TO. -/
def normalize_relation (rel_type : String) : String :=
  if (pyStripStr rel_type).data = [] then "RELATED_TO"
  else if relCore (pyStripStr rel_type).data = [] then "RELATED_TO"
  else ⟨relCore (pyStripStr rel_type).data⟩

/-- Scanner for a digit immediately followed by an uppercase letter; such a
pair is exactly what the camel-case regex of normalize_relation still
matches in an already-normalized relation label. -/
def hasDigitUpper : List Char → Bool
  | [] => false
  | [_] => false
  | c1 :: c2 :: rest => (pyIsDigit c1 && pyIsUpper c2) || hasDigitUpper (c2 :: rest)

theorem replaceDD_length_le : ∀ l : List Char, (replaceDD l).length ≤ l.length := by
  intro l
  induction l using replaceDD.induct with
  | case1 => simp [replaceDD]
  | case2 c => simp [replaceDD]
  | case3 c1 c2 rest h ih =>
    rw [replaceDD, if_pos h]
    simp only [List.length_cons]
    omega
  | case4 c1 c2 rest h ih =>
    rw [replaceDD, if_neg h]
    simp only [List.length_cons] at ih ⊢
    omega

theorem replaceDD_length_lt : ∀ {l : List Char}, ['_', '_'] <:+: l →
    (replaceDD l).length < l.length := by
  intro l
  induction l using replaceDD.induct with
  | case1 =>
    intro h
    simp at h
  | case2 c =>
    intro h
    have := h.length_le
    simp at this
  | case3 c1 c2 rest h ih =>
    intro _
    rw [replaceDD, if_pos h]
    have := replaceDD_length_le rest
    simp only [List.length_cons]
    omega
  | case4 c1 c2 rest h ih =>
    intro hin
    rcases List.infix_cons_iff.mp hin with hpre | hinf
    · rcases List.cons_prefix_cons.mp hpre with ⟨h1, hpre2⟩
      rcases List.cons_prefix_cons.mp hpre2 with ⟨h2, _⟩
      exact absurd ⟨h1.symm, h2.symm⟩ h
    · rw [replaceDD, if_neg h]
      have := ih hinf
      simp only [List.length_cons] at this ⊢
      omega

theorem hasDD_nil : hasDD [] = false := by
  simp [hasDD]

theorem collapseLoopFuel_hasDD : ∀ (n : Nat) {l : List Char}, l.length ≤ n →
    hasDD (collapseLoopFuel n l) = false := by
  intro n
  induction n with
  | zero =>
    intro l hl
    have : l = [] := List.length_eq_zero.mp (Nat.le_zero.mp hl)
    subst this
    exact hasDD_nil
  | succ n ih =>
    intro l hl
    by_cases hdd : hasDD l = true
    · rw [collapseLoopFuel, if_pos hdd]
      have hinf : ['_', '_'] <:+: l := by simpa [hasDD] using hdd
      exact ih (by have := replaceDD_length_lt hinf; omega)
    · rw [collapseLoopFuel, if_neg hdd]
      simpa using hdd

theorem hasDD_collapseUnderscores (l : List Char) :
    hasDD (collapseUnderscores l) = false :=
  collapseLoopFuel_hasDD l.length (Nat.le_refl _)

theorem collapseLoopFuel_of_hasDD_false {l : List Char} (h : hasDD l = false) :
    ∀ n, collapseLoopFuel n l = l := by
  intro n
  cases n with
  | zero => rfl
  | succ n => rw [collapseLoopFuel, if_neg (by simp [h])]

theorem mem_replaceDD {c : Char} : ∀ {l : List Char}, c ∈ replaceDD l → c ∈ l := by
  intro l
  induction l using replaceDD.induct with
  | case1 => simp [replaceDD]
  | case2 d => simp [replaceDD]
  | case3 c1 c2 rest h ih =>
    rw [replaceDD, if_pos h]
    intro hc
    rcases List.mem_cons.mp hc with h1 | h1
    · simp [h1, h.1]
    · simp [ih h1]
  | case4 c1 c2 rest h ih =>
    rw [replaceDD, if_neg h]
    intro hc
    rcases List.mem_cons.mp hc with h1 | h1
    · simp [h1]
    · simpa using Or.inr (ih h1)

theorem mem_collapseLoopFuel {c : Char} : ∀ {n : Nat} {l : List Char},
    c ∈ collapseLoopFuel n l → c ∈ l := by
  intro n
  induction n with
  | zero => intro l h; exact h
  | succ n ih =>
    intro l h
    rw [collapseLoopFuel] at h
    split at h
    · exact mem_replaceDD (ih h)
    · exact h

theorem mem_stripEnds {p : Char → Bool} {c : Char} {l : List Char}
    (h : c ∈ stripEnds p l) : c ∈ l := by
  rw [stripEnds, List.mem_reverse] at h
  have h2 := (List.dropWhile_sublist p).subset h
  rw [List.mem_reverse] at h2
  exact (List.dropWhile_sublist p).subset h2

theorem mem_relSubUpper {c : Char} {l : List Char} (h : c ∈ relSubUpper l) :
    pyIsUpper c = true ∨ pyIsDigit c = true ∨ c = '_' := by
  rcases List.mem_map.mp h with ⟨x1, hx1, hx⟩
  rcases List.mem_map.mp hx1 with ⟨x0, _, hx0⟩
  by_cases ha : pyIsAlnum x0 = true
  · have hx1e : x1 = x0 := by rw [← hx0]; simp [normSubChar, ha]
    have : pyIsAlnum x1 = true := hx1e ▸ ha
    rcases pyToUpper_alnum this with h1 | h1
    · exact Or.inl (hx ▸ h1)
    · exact Or.inr (Or.inl (hx ▸ h1))
  · have hx1e : x1 = '_' := by rw [← hx0]; simp [normSubChar, ha]
    right; right
    rw [← hx, hx1e]
    decide

theorem mem_relCore_shape {c : Char} {l : List Char} (h : c ∈ relCore l) :
    pyIsUpper c = true ∨ pyIsDigit c = true ∨ c = '_' :=
  mem_relSubUpper (mem_collapseLoopFuel (mem_stripEnds h))

theorem infix_of_infix_stripEnds {p : Char → Bool} {t l : List Char}
    (h : t <:+: stripEnds p l) : t <:+: l := by
  rw [stripEnds] at h
  have h1 : t.reverse <:+: ((l.dropWhile p).reverse.dropWhile p) := by
    rw [← List.reverse_reverse t] at h
    exact List.reverse_infix.mp h
  have h2 : t.reverse <:+: (l.dropWhile p).reverse :=
    h1.trans (List.dropWhile_suffix p).isInfix
  have h3 : t <:+: l.dropWhile p := (List.reverse_infix).mp h2
  exact h3.trans (List.dropWhile_suffix p).isInfix

theorem hasDD_stripEnds {p : Char → Bool} {l : List Char}
    (h : hasDD l = false) : hasDD (stripEnds p l) = false := by
  simp only [hasDD, decide_eq_false_iff_not] at h ⊢
  exact fun hc => h (infix_of_infix_stripEnds hc)

theorem hasDD_relCore (l : List Char) : hasDD (relCore l) = false :=
  hasDD_stripEnds (hasDD_collapseUnderscores _)

theorem head?_dropWhile {p : Char → Bool} {c : Char} :
    ∀ {l : List Char}, (l.dropWhile p).head? = some c → p c = false := by
  intro l
  induction l with
  | nil => intro h; simp [List.dropWhile] at h
  | cons a t ih =>
    intro h
    rw [List.dropWhile_cons] at h
    split at h
    · exact ih h
    · rename_i hpa
      have hac : a = c := by simpa using h
      subst hac
      simpa using hpa

theorem getLast?_of_suffix {v x : List Char} {c : Char} (hs : v <:+ x)
    (h : v.getLast? = some c) : x.getLast? = some c := by
  rcases hs with ⟨pre, rfl⟩
  rw [List.getLast?_append, h]
  rfl

theorem stripEnds_head? {p : Char → Bool} {l : List Char} {c : Char}
    (h : (stripEnds p l).head? = some c) : p c = false := by
  rw [stripEnds, List.head?_reverse] at h
  have h2 : ((l.dropWhile p).reverse).getLast? = some c :=
    getLast?_of_suffix (List.dropWhile_suffix p) h
  rw [List.getLast?_reverse] at h2
  exact head?_dropWhile h2

theorem stripEnds_getLast? {p : Char → Bool} {l : List Char} {c : Char}
    (h : (stripEnds p l).getLast? = some c) : p c = false := by
  rw [stripEnds, List.getLast?_reverse] at h
  exact head?_dropWhile h

theorem dropWhile_eq_self_of_head? {p : Char → Bool} {l : List Char}
    (h : ∀ c, l.head? = some c → p c = false) : l.dropWhile p = l := by
  cases l with
  | nil => rfl
  | cons a t =>
    rw [List.dropWhile_cons, if_neg]
    simp [h a rfl]

theorem stripEnds_eq_self {p : Char → Bool} {l : List Char}
    (hh : ∀ c, l.head? = some c → p c = false)
    (hl : ∀ c, l.getLast? = some c → p c = false) : stripEnds p l = l := by
  rw [stripEnds, dropWhile_eq_self_of_head? hh,
    dropWhile_eq_self_of_head? (fun c hc => hl c (by rwa [List.head?_reverse] at hc))]
  exact List.reverse_reverse l

theorem not_lower_of_upper {c : Char} (h : pyIsUpper c = true) :
    pyIsLower c = false := by
  rw [Bool.eq_false_iff]
  intro hc
  have h1 := pyIsUpper_iff.mp h
  have h2 := pyIsLower_iff.mp hc
  omega

theorem not_lower_of_digit {c : Char} (h : pyIsDigit c = true) :
    pyIsLower c = false := by
  rw [Bool.eq_false_iff]
  intro hc
  have h1 := pyIsDigit_iff.mp h
  have h2 := pyIsLower_iff.mp hc
  omega

theorem not_lower_of_shape {c : Char}
    (h : pyIsUpper c = true ∨ pyIsDigit c = true ∨ c = '_') :
    pyIsLower c = false := by
  rcases h with h | h | h
  · exact not_lower_of_upper h
  · exact not_lower_of_digit h
  · subst h; decide

theorem pyIsSpace_toNat_le {c : Char} (h : pyIsSpace c = true) : c.toNat ≤ 32 := by
  rw [pyIsSpace] at h
  simp only [Bool.or_eq_true, decide_eq_true_eq] at h
  rcases h with ((((h | h) | h) | h) | h) | h <;> (subst h; decide)

theorem not_space_of_shape {c : Char}
    (h : pyIsUpper c = true ∨ pyIsDigit c = true ∨ c = '_') :
    pyIsSpace c = false := by
  rw [Bool.eq_false_iff]
  intro hs
  have hle := pyIsSpace_toNat_le hs
  rcases h with h | h | h
  · have := pyIsUpper_iff.mp h; omega
  · have := pyIsDigit_iff.mp h; omega
  · subst h; exact absurd hs (by decide)

theorem camelSub_eq_self : ∀ {l : List Char}, (∀ c ∈ l, pyIsLower c = false) →
    hasDigitUpper l = false → camelSub l = l := by
  intro l
  induction l using hasDigitUpper.induct with
  | case1 => intro _ _; rfl
  | case2 c => intro _ _; rfl
  | case3 c1 c2 rest ih =>
    intro hlo hdu
    rw [hasDigitUpper] at hdu
    rw [Bool.or_eq_false_iff] at hdu
    have hl1 : pyIsLower c1 = false := hlo c1 (by simp)
    show (if (pyIsLower c1 || pyIsDigit c1) && pyIsUpper c2 then
        c1 :: '_' :: c2 :: camelSub rest
      else c1 :: camelSub (c2 :: rest)) = c1 :: c2 :: rest
    rw [if_neg (by rw [hl1]; simpa using hdu.1)]
    rw [ih (fun c hc => hlo c (by simp [hc])) hdu.2]

theorem relSubUpper_eq_self {l : List Char}
    (h : ∀ c ∈ l, pyIsUpper c = true ∨ pyIsDigit c = true ∨ c = '_') :
    relSubUpper l = l := by
  have e1 : l.map normSubChar = l := list_map_id_of_mem (fun c hc => by
    rcases h c hc with h1 | h1 | h1
    · exact normSubChar_of_alnum_or_underscore (Or.inl (by simp [pyIsAlnum, h1]))
    · exact normSubChar_of_alnum_or_underscore (Or.inl (by simp [pyIsAlnum, h1]))
    · exact normSubChar_of_alnum_or_underscore (Or.inr h1))
  have e2 : l.map pyToUpper = l := list_map_id_of_mem (fun c hc => by
    rcases h c hc with h1 | h1 | h1
    · exact pyToUpper_eq_of_not_lower (not_lower_of_upper h1)
    · exact pyToUpper_eq_of_not_lower (not_lower_of_digit h1)
    · subst h1; decide)
  rw [relSubUpper, e1, e2]

/-- Fixed-point property of normalize_relation: on a nonempty upper-snake
string with no doubled, leading, or trailing underscore and no digit
immediately followed by an uppercase letter, normalize_relation is the
identity. -/
theorem normalize_relation_fix {R : List Char} (hne : R ≠ [])
    (hshape : ∀ c ∈ R, pyIsUpper c = true ∨ pyIsDigit c = true ∨ c = '_')
    (hdd : hasDD R = false)
    (hh : ∀ c, R.head? = some c → c ≠ '_')
    (hl : ∀ c, R.getLast? = some c → c ≠ '_')
    (hdu : hasDigitUpper R = false) :
    normalize_relation ⟨R⟩ = ⟨R⟩ := by
  have hstrip : pyStripStr ⟨R⟩ = ⟨R⟩ := by
    apply congrArg String.mk
    exact stripEnds_eq_self
      (fun c hc => not_space_of_shape (hshape c (List.mem_of_mem_head? (by simp [hc]))))
      (fun c hc => not_space_of_shape (hshape c (List.mem_of_getLast?_eq_some hc)))
  have hcore : relCore R = R := by
    rw [relCore, camelSub_eq_self (fun c hc => not_lower_of_shape (hshape c hc)) hdu,
      relSubUpper_eq_self hshape, collapseUnderscores,
      collapseLoopFuel_of_hasDD_false hdd]
    exact stripEnds_eq_self
      (fun c hc => by simpa using hh c hc)
      (fun c hc => by simpa using hl c hc)
  rw [normalize_relation, hstrip]
  rw [if_neg (by simpa using hne), hcore, if_neg hne]

theorem relCore_head_ne {l : List Char} {c : Char}
    (hc : (relCore l).head? = some c) : c ≠ '_' :=
  ne_of_beq_false (@stripEnds_head? (fun ch => ch == '_')
    (collapseUnderscores (relSubUpper (camelSub l))) c hc)

theorem relCore_getLast_ne {l : List Char} {c : Char}
    (hc : (relCore l).getLast? = some c) : c ≠ '_' :=
  ne_of_beq_false (@stripEnds_getLast? (fun ch => ch == '_')
    (collapseUnderscores (relSubUpper (camelSub l))) c hc)

/-- C3 counterexample: normalize_relation is not idempotent. The camel-case
regex matches a digit followed by an uppercase letter, so "a1b" normalizes
to "A1B", which normalizes again to "A1_B". -/
theorem normalize_relation_not_idempotent :
    normalize_relation "a1b" = "A1B" ∧
    normalize_relation (normalize_relation "a1b") = "A1_B" ∧
    normalize_relation (normalize_relation "a1b") ≠ normalize_relation "a1b" := by
  refine ⟨by decide, by decide, by decide⟩

/-- C3 amended: normalize_relation always produces a nonempty upper-snake
token (uppercase letters, digits and underscores, with no doubled, leading
or trailing underscore), and it is idempotent on exactly those inputs whose
output contains no digit immediately followed by an uppercase letter (the
one shape its camel-case decomposition still rewrites). -/
theorem normalize_relation_upper_snake (r : String) :
    normalize_relation r ≠ "" ∧
    (∀ c ∈ (normalize_relation r).data,
      pyIsUpper c = true ∨ pyIsDigit c = true ∨ c = '_') ∧
    hasDD (normalize_relation r).data = false ∧
    (∀ c, (normalize_relation r).data.head? = some c → c ≠ '_') ∧
    (∀ c, (normalize_relation r).data.getLast? = some c → c ≠ '_') ∧
    (hasDigitUpper (normalize_relation r).data = false →
      normalize_relation (normalize_relation r) = normalize_relation r) := by
  by_cases h1 : (pyStripStr r).data = []
  · rw [normalize_relation, if_pos h1]
    refine ⟨by decide, by decide, by decide, by decide, by decide, fun _ => by decide⟩
  · by_cases h2 : relCore (pyStripStr r).data = []
    · rw [normalize_relation, if_neg h1, if_pos h2]
      refine ⟨by decide, by decide, by decide, by decide, by decide, fun _ => by decide⟩
    · rw [normalize_relation, if_neg h1, if_neg h2]
      refine ⟨?_, ?_, ?_, ?_, ?_, ?_⟩
      · intro hcon
        exact h2 (by simpa [String.ext_iff] using hcon)
      · intro c hc
        exact mem_relCore_shape hc
      · exact hasDD_relCore _
      · intro c hc
        exact relCore_head_ne hc
      · intro c hc
        exact relCore_getLast_ne hc
      · intro hdu
        exact normalize_relation_fix h2 (fun c hc => mem_relCore_shape hc)
          (hasDD_relCore _)
          (fun c hc => relCore_head_ne hc)
          (fun c hc => relCore_getLast_ne hc)
          hdu

/-- C3 witness: the amended idempotence at the concrete input "lives in". -/
theorem normalize_relation_upper_snake_witness :
    hasDigitUpper (normalize_relation "lives in").data = false ∧
    normalize_relation (normalize_relation "lives in") = normalize_relation "lives in" :=
  ⟨by decide, (normalize_relation_upper_snake "lives in").2.2.2.2.2 (by decide)⟩

/-! ## Conflict Engine: sentinel/conflicts.py -/

/-- Row of the Neo4j triplet listing (neo.get_triplet()): one stored fact
with its subject, relation label, object and timestamp attributes. -/
structure StoredFact where
  subj : String
  rel : String
  obj : String
  timestamp : String
deriving DecidableEq, Repr

/-- Translation of SINGLE_VALUED_RELATIONS from sentinel/conflicts.py. -/
def SINGLE_VALUED_RELATIONS : List String :=
  ["LIVES_IN", "WORKS_AT", "STUDIES_AT", "HAS_PHONE_NUMBER",
   "HAS_EMAIL", "HAS_BIRTHDATE", "CURRENT_ROLE", "CURRENT_JOB"]

/-- Translation of sentinel/conflicts.py is_single_valued: membership of the
uppercased relation label in the single-valued set. -/
def is_single_valued (rel_type : String) : Bool :=
  SINGLE_VALUED_RELATIONS.contains (pyUpperStr rel_type)

/-- Translation of sentinel/conflicts.py detect_conflicts: for a
single-valued relation, the stored facts with the same subject, the same
relation up to case, and a different object; empty otherwise. The store
read neo.get_triplet() is modelled as the list of stored facts. -/
def detect_conflicts (facts : List StoredFact) (subj rel_type obj : String) :
    List StoredFact :=
  if is_single_valued rel_type = false then []
  else facts.filter (fun t =>
    t.subj == subj && pyLowerStr t.rel == pyLowerStr rel_type && t.obj != obj)

/-- C1: detect_conflicts returns exactly the stored facts with equal
subject, case-insensitively equal relation and different object when the
uppercased relation is single-valued, returns nothing otherwise, and in
particular reports each of two same-subject same-relation different-object
facts when the other is the new fact. -/
theorem detect_conflicts_exact (facts : List StoredFact) (subj rel obj : String) :
    (is_single_valued rel = true →
      ∀ t, t ∈ detect_conflicts facts subj rel obj ↔
        (t ∈ facts ∧ t.subj = subj ∧ pyLowerStr t.rel = pyLowerStr rel ∧ t.obj ≠ obj)) ∧
    (is_single_valued rel = false → detect_conflicts facts subj rel obj = []) ∧
    (∀ f1 f2 : StoredFact, f1 ∈ facts → f1.subj = f2.subj → f1.rel = f2.rel →
      is_single_valued f2.rel = true → f1.obj ≠ f2.obj →
      f1 ∈ detect_conflicts facts f2.subj f2.rel f2.obj) := by
  refine ⟨?_, ?_, ?_⟩
  · intro hsv t
    rw [detect_conflicts, if_neg (by simp [hsv])]
    rw [List.mem_filter]
    constructor
    · intro ⟨h1, h2⟩
      simp only [Bool.and_eq_true, beq_iff_eq, bne_iff_ne] at h2
      exact ⟨h1, h2.1.1, h2.1.2, h2.2⟩
    · intro ⟨h1, h2, h3, h4⟩
      refine ⟨h1, ?_⟩
      simp only [Bool.and_eq_true, beq_iff_eq, bne_iff_ne]
      exact ⟨⟨h2, h3⟩, h4⟩
  · intro hsv
    rw [detect_conflicts, if_pos hsv]
  · intro f1 f2 h1 h2 h3 hsv h4
    rw [detect_conflicts, if_neg (by simp [hsv])]
    rw [List.mem_filter]
    refine ⟨h1, ?_⟩
    simp only [Bool.and_eq_true, beq_iff_eq, bne_iff_ne]
    exact ⟨⟨h2, by rw [h3]⟩, h4⟩

/-- C1 witness: a store with a differing LIVES_IN fact, checked at concrete
inputs through detect_conflicts_exact. -/
theorem detect_conflicts_exact_witness :
    (is_single_valued "LIVES_IN" = true ∧
      (StoredFact.mk "user" "LIVES_IN" "melbourne" "t1" ∈
        detect_conflicts [StoredFact.mk "user" "LIVES_IN" "melbourne" "t1"]
          "user" "LIVES_IN" "sydney" ↔
        (StoredFact.mk "user" "LIVES_IN" "melbourne" "t1" ∈
            [StoredFact.mk "user" "LIVES_IN" "melbourne" "t1"] ∧
          "user" = "user" ∧ pyLowerStr "LIVES_IN" = pyLowerStr "LIVES_IN" ∧
          "melbourne" ≠ "sydney"))) ∧
    (is_single_valued "LIKES" = false ∧
      detect_conflicts [StoredFact.mk "user" "LIKES" "tea" "t1"]
        "user" "LIKES" "coffee" = []) ∧
    StoredFact.mk "user" "LIVES_IN" "melbourne" "t1" ∈
      detect_conflicts [StoredFact.mk "user" "LIVES_IN" "melbourne" "t1"]
        "user" "LIVES_IN" "sydney" :=
  ⟨⟨by decide,
    (detect_conflicts_exact [StoredFact.mk "user" "LIVES_IN" "melbourne" "t1"]
      "user" "LIVES_IN" "sydney").1 (by decide) _⟩,
   ⟨by decide,
    (detect_conflicts_exact [StoredFact.mk "user" "LIKES" "tea" "t1"]
      "user" "LIKES" "coffee").2.1 (by decide)⟩,
   (detect_conflicts_exact [StoredFact.mk "user" "LIVES_IN" "melbourne" "t1"]
      "user" "LIVES_IN" "sydney").2.2
     (StoredFact.mk "user" "LIVES_IN" "melbourne" "t1")
     (StoredFact.mk "user" "LIVES_IN" "sydney" "t2")
     (by decide) rfl rfl (by decide) (by decide)⟩

/-- Stored graph edge: a directed fact edge between two node ids carrying
the relation label, the timestamp, and the optional status attribute set
only by conflict resolution. -/
structure Edge where
  subj : String
  rel : String
  obj : String
  ts : String
  status : Option String
deriving DecidableEq, Repr

/-- Match predicate of the Cypher pattern used by apply_conflict_resolution:
(a {id: subj})-[r:REL {timestamp: ts}]->(b {id: obj}). -/
def matchesEdge (subj rel obj ts : String) (e : Edge) : Bool :=
  e.subj == subj && e.rel == rel && e.obj == obj && e.ts == ts

/-- SET r.status = status on every edge matching the pattern. -/
def setStatus (subj rel obj ts status : String) (store : List Edge) : List Edge :=
  store.map (fun e =>
    if matchesEdge subj rel obj ts e then
      { e with status := some status }
    else e)

/-- DELETE r on every edge matching the pattern. -/
def deleteEdges (subj rel obj ts : String) (store : List Edge) : List Edge :=
  store.filter (fun e => !(matchesEdge subj rel obj ts e))

/-- Pending conflict record built in sentinel/main.py: subject, relation,
new object, new timestamp, and the list of conflicting prior facts. -/
structure ConflictRecord where
  subj : String
  rel : String
  new_obj : String
  new_ts : String
  old : List StoredFact
deriving Repr

/-- Translation of sentinel/conflicts.py apply_conflict_resolution on the
edge-store model: choice A marks each old fact status past then the new
fact current; B marks all of them current; C deletes the new fact; any
other choice changes nothing. -/
def apply_conflict_resolution (choice : String) (c : ConflictRecord)
    (store : List Edge) : List Edge :=
  if choice = "A" then
    setStatus c.subj c.rel c.new_obj c.new_ts "current"
      (c.old.foldl (fun st t => setStatus c.subj c.rel t.obj t.timestamp "past" st) store)
  else if choice = "B" then
    setStatus c.subj c.rel c.new_obj c.new_ts "current"
      (c.old.foldl (fun st t => setStatus c.subj c.rel t.obj t.timestamp "current" st) store)
  else if choice = "C" then
    deleteEdges c.subj c.rel c.new_obj c.new_ts store
  else store

/-- C6: choice C deletes exactly the edges matching the conflict record's
subject, relation, new object and new timestamp; every other stored edge
survives entirely unchanged (same object, timestamp and status), the
surviving edges keep their order, and in particular every edge with a
different object (every conflicting prior fact) survives. -/
theorem apply_conflict_resolution_C_frame (c : ConflictRecord) (store : List Edge) :
    (∀ e : Edge, e ∈ apply_conflict_resolution "C" c store ↔
      (e ∈ store ∧ matchesEdge c.subj c.rel c.new_obj c.new_ts e = false)) ∧
    List.Sublist (apply_conflict_resolution "C" c store) store ∧
    (∀ e ∈ store, e.obj ≠ c.new_obj → e ∈ apply_conflict_resolution "C" c store) := by
  have hC : apply_conflict_resolution "C" c store
      = deleteEdges c.subj c.rel c.new_obj c.new_ts store := by
    rw [apply_conflict_resolution, if_neg (by decide), if_neg (by decide), if_pos rfl]
  refine ⟨?_, ?_, ?_⟩
  · intro e
    rw [hC, deleteEdges, List.mem_filter]
    simp only [Bool.not_eq_true']
  · rw [hC]
    exact List.filter_sublist _
  · intro e he hobj
    rw [hC, deleteEdges, List.mem_filter]
    refine ⟨he, ?_⟩
    simp only [Bool.not_eq_true', matchesEdge]
    simp only [Bool.and_eq_false_iff, beq_eq_false_iff_ne]
    left; right
    exact hobj

/-- C6 witness: the Scenario 4 store; applying choice C keeps the prior
melbourne edge, through apply_conflict_resolution_C_frame. -/
theorem apply_conflict_resolution_C_frame_witness :
    Edge.mk "user" "LIVES_IN" "melbourne" "t1" none ∈
      apply_conflict_resolution "C"
        (ConflictRecord.mk "user" "LIVES_IN" "sydney" "t2"
          [StoredFact.mk "user" "LIVES_IN" "melbourne" "t1"])
        [Edge.mk "user" "LIVES_IN" "melbourne" "t1" none,
         Edge.mk "user" "LIVES_IN" "sydney" "t2" none] :=
  (apply_conflict_resolution_C_frame
      (ConflictRecord.mk "user" "LIVES_IN" "sydney" "t2"
        [StoredFact.mk "user" "LIVES_IN" "melbourne" "t1"])
      [Edge.mk "user" "LIVES_IN" "melbourne" "t1" none,
       Edge.mk "user" "LIVES_IN" "sydney" "t2" none]).2.2
    (Edge.mk "user" "LIVES_IN" "melbourne" "t1" none) (by decide) (by decide)

/-! ## Canonicalizer: sentinel/extract.py, user-reference detection -/

mutual

/-- Core of re.sub with a character-class pattern of the form [class]+ and a
one-character replacement: each maximal run of characters of the class is
replaced by the single replacement character. -/
def subRuns (p : Char → Bool) (rep : Char) : List Char → List Char
  | [] => []
  | c :: rest => if p c then rep :: subRunsSkip p rep rest else c :: subRuns p rep rest

/-- Run-skipping state of subRuns: consume the rest of the current run. -/
def subRunsSkip (p : Char → Bool) (rep : Char) : List Char → List Char
  | [] => []
  | c :: rest => if p c then subRunsSkip p rep rest else c :: subRuns p rep rest

end

/-- Character class [^a-z0-9] of _normalize_surface: anything that is not a
lowercase letter or digit. -/
def notLowerDigit (c : Char) : Bool := !(pyIsLower c || pyIsDigit c)

/-- Translation of sentinel/extract.py _normalize_surface: strip and
lowercase, replace runs of non-[a-z0-9] characters by single spaces
(re.sub "[^a-z0-9]+" -> " "), collapse whitespace runs to single spaces
(re.sub "\s+" -> " "), and strip again. -/
def _normalize_surface (text : String) : String :=
  let t1 := (stripEnds pyIsSpace text.data).map pyToLower
  let t2 := subRuns notLowerDigit ' ' t1
  let t3 := subRuns pyIsSpace ' ' t2
  ⟨stripEnds pyIsSpace t3⟩

/-- Anchored match of the pattern ^the\s*WORD$ from _USER_REF_PATTERNS. -/
def matchesTheWord (word : List Char) (s : List Char) : Bool :=
  match s with
  | 't' :: 'h' :: 'e' :: rest => (rest.dropWhile pyIsSpace) == word
  | _ => false

/-- Translation of the _USER_REF_PATTERNS match loop: the normalized surface
form fully matches one of the fixed first-person/deictic patterns. -/
def matchesUserPattern (s : List Char) : Bool :=
  s == "i".data || s == "me".data || s == "my".data || s == "myself".data ||
  s == "user".data || matchesTheWord "user".data s ||
  s == "speaker".data || matchesTheWord "speaker".data s

/-- Translation of sentinel/extract.py is_user_reference: an empty
normalized surface form counts as the user, otherwise the fixed pattern
list is tried. -/
def is_user_reference (raw_subj_id : String) : Bool :=
  let s := _normalize_surface raw_subj_id
  if s.data = [] then true
  else matchesUserPattern s.data

theorem subRuns_all {p : Char → Bool} {rep : Char} :
    (∀ {l : List Char}, (∀ c ∈ l, p c = true) →
      subRuns p rep l = if l = [] then [] else [rep]) ∧
    (∀ {l : List Char}, (∀ c ∈ l, p c = true) → subRunsSkip p rep l = []) := by
  constructor
  · intro l
    induction l with
    | nil => intro _; rfl
    | cons c rest ih =>
      intro h
      rw [subRuns, if_pos (h c (by simp))]
      have hskip : subRunsSkip p rep rest = [] := by
        clear ih
        induction rest with
        | nil => rfl
        | cons d t iht =>
          rw [subRunsSkip, if_pos (h d (by simp))]
          exact iht (fun x hx => h x (by
            rcases List.mem_cons.mp hx with h1 | h1
            · simp [h1]
            · simp [List.mem_cons.mpr (Or.inr (List.mem_cons.mpr (Or.inr h1)))]))
      rw [hskip]
      simp
  · intro l
    induction l with
    | nil => intro _; rfl
    | cons c rest ih =>
      intro h
      rw [subRunsSkip, if_pos (h c (by simp))]
      exact ih (fun x hx => h x (by simp [hx]))

/-- C10: is_user_reference accepts the empty string, and any string with no
ASCII-alphanumeric characters normalizes to the empty surface form and is
therefore also accepted. -/
theorem is_user_reference_empty_and_nonalnum :
    is_user_reference "" = true ∧
    (∀ s : String, (∀ c ∈ s.data, pyIsAlnum c = false) →
      is_user_reference s = true) := by
  constructor
  · rfl
  · intro s hs
    have h1 : ∀ c ∈ (stripEnds pyIsSpace s.data).map pyToLower,
        notLowerDigit c = true := by
      intro c hc
      rcases List.mem_map.mp hc with ⟨x, hx, hlc⟩
      have hxa : pyIsAlnum x = false := hs x (mem_stripEnds hx)
      have hxl : pyToLower x = x := by
        rw [pyToLower, if_neg]
        intro hup
        rw [pyIsAlnum] at hxa
        simp only [Bool.or_eq_false_iff] at hxa
        exact absurd (by simpa using hup) (by simp [hxa.1.2])
      rw [← hlc, hxl, notLowerDigit]
      rw [pyIsAlnum] at hxa
      simp only [Bool.or_eq_false_iff] at hxa
      simp [hxa.1.1, hxa.2]
    have h2 : subRuns notLowerDigit ' '
        ((stripEnds pyIsSpace s.data).map pyToLower) =
        if (stripEnds pyIsSpace s.data).map pyToLower = [] then [] else [' '] :=
      subRuns_all.1 h1
    rw [is_user_reference]
    have h3 : (_normalize_surface s).data = [] := by
      rw [_normalize_surface]
      rw [h2]
      split
      · rfl
      · rfl
    simp only [h3, if_pos]

/-- C10 witness: a punctuation-only subject is folded onto the user node,
through is_user_reference_empty_and_nonalnum. -/
theorem is_user_reference_witness : is_user_reference "?!." = true :=
  is_user_reference_empty_and_nonalnum.2 "?!." (by decide)

/-- C5 witness: the run-preservation theorem at the concrete input of one
letter, two spaces, and one letter. -/
theorem norm_preserves_runs_witness :
    norm ⟨'a' :: List.replicate 2 ' ' ++ ['b']⟩ =
      ⟨('a' :: List.replicate 2 '_' ++ ['b']).take 60⟩ :=
  norm_preserves_runs 'a' 'b' 2 (by decide) (by decide) (by decide)

/-! ## Candidate Filter and Structurer: sentinel/curator.py run_curator and
sentinel/enricher.py run_enricher.

The external pieces (the ChatAgent call producing the raw response text and
the json.loads parse inside _safe_json_parse) are modelled as one input of
type Option PyVal: none stands for a response in which no JSON object could
be parsed, some v for a successfully parsed JSON value v. Everything after
the parse is translated from the source. -/

/-- Python/JSON value as handled by the curator and enricher plumbing.
Numbers are modelled as rationals (no IEEE rounding is exercised by the
repository's handling, which only defaults and clamps). -/
inductive PyVal where
  | none : PyVal
  | bool : Bool → PyVal
  | num : ℚ → PyVal
  | str : String → PyVal
  | list : List PyVal → PyVal
  | dict : List (String × PyVal) → PyVal

/-- Python truthiness of a value (None, False, 0, "", empty containers are
falsy). -/
def pyTruthy : PyVal → Bool
  | .none => false
  | .bool b => b
  | .num q => q != 0
  | .str s => s != ""
  | .list l => !l.isEmpty
  | .dict d => !d.isEmpty

/-- Python dict.get with a default. -/
def pyGet (d : List (String × PyVal)) (k : String) (dflt : PyVal) : PyVal :=
  match d.find? (fun kv => kv.1 == k) with
  | some kv => kv.2
  | Option.none => dflt

/-- Python str() on a value. Container renderings are abbreviated: the
repository only ever tests the result for emptiness after stripping, and
Python renders containers, None and booleans as nonempty text. -/
def pyStr : PyVal → String
  | .none => "None"
  | .bool b => if b then "True" else "False"
  | .num q => toString q
  | .str s => s
  | .list _ => "[list]"
  | .dict _ => "[dict]"

/-- Digit-list to number, for the decimal fragment of Python float(). -/
def digitsToNat (l : List Char) : Nat :=
  l.foldl (fun acc c => acc * 10 + (c.toNat - 48)) 0

/-- Decimal fragment of Python float() on an unsigned literal: digits with
an optional fractional part. -/
def parseDecimal (l : List Char) : Option ℚ :=
  let ip := l.takeWhile pyIsDigit
  let rest := l.drop ip.length
  match rest with
  | [] => if ip = [] then Option.none else some ((digitsToNat ip : ℚ))
  | '.' :: fp =>
    if fp.all pyIsDigit ∧ ¬(ip = [] ∧ fp = []) then
      some ((digitsToNat ip : ℚ) + (digitsToNat fp : ℚ) / ((10 : ℚ) ^ fp.length))
    else Option.none
  | _ => Option.none

/-- Python float() on a string: strip, optional sign, decimal literal
(scientific notation and the inf/nan spellings are not modelled; the
tolerance claims do not depend on them). -/
def pyFloatOfString (s : String) : Option ℚ :=
  match stripEnds pyIsSpace s.data with
  | '-' :: rest => (parseDecimal rest).map (fun q => -q)
  | '+' :: rest => parseDecimal rest
  | t => parseDecimal t

/-- Python float() on a value: numbers pass through, booleans become 0 or
1, numeric strings parse, everything else raises (modelled as none, which
the callers turn into the 0.8 default). -/
def pyFloat : PyVal → Option ℚ
  | .num q => some q
  | .bool b => some (if b then 1 else 0)
  | .str s => pyFloatOfString s
  | _ => Option.none

/-- Normalized curator candidate dict: subj, rel, obj and clamped
confidence. -/
structure Candidate where
  subj : String
  rel : String
  obj : String
  confidence : ℚ
deriving DecidableEq, Repr

/-- Result record of run_curator. -/
structure CuratorResult where
  clean_text : String
  candidates : List Candidate
  notes : List String
deriving DecidableEq, Repr

/-- Fallback CuratorResult for unparseable model output. -/
def curatorFallback : CuratorResult :=
  CuratorResult.mk "" [] ["Curator output was not valid JSON; stored nothing."]

/-- Elements of a value when it is a list, else nothing: the isinstance
list check in run_curator and run_enricher. -/
def pyValAsList : PyVal → List PyVal
  | .list l => l
  | _ => []

/-- Python x or y for the defaulting idiom value = obj.get(k, d) or d. -/
def pyOrElse (v dflt : PyVal) : PyVal := if pyTruthy v then v else dflt

/-- Python min of two numbers. -/
def ratMin (a b : ℚ) : ℚ := if a ≤ b then a else b

/-- Python max of two numbers. -/
def ratMax (a b : ℚ) : ℚ := if b ≤ a then a else b

/-- Clamp of the parsed confidence into [0,1] with the 0.8 default, the
try/except float conversion followed by max(0.0, min(conf, 1.0)). -/
def clampConf (v : PyVal) : ℚ := ratMax 0 (ratMin ((pyFloat v).getD (4 / 5)) 1)

/-- Candidate normalization loop body of run_curator: non-dict entries and
entries with an empty relation or object are skipped; a missing subject
defaults to USER, a missing relation to FACT. -/
def normCandidate (c : PyVal) : Option Candidate :=
  match c with
  | .dict cd =>
    let subj0 := pyStripStr (pyStr (pyGet cd "subj" (.str "USER")))
    let subj := if subj0 = "" then "USER" else subj0
    let rel := pyStripStr (pyStr (pyGet cd "rel" (.str "FACT")))
    let objv := pyStripStr (pyStr (pyGet cd "obj" (.str "")))
    if rel = "" ∨ objv = "" then Option.none
    else some (Candidate.mk subj rel objv (clampConf (pyGet cd "confidence" (.num (4 / 5)))))
  | _ => Option.none

/-- Note normalization of run_curator and run_enricher:
[str(n) for n in notes if str(n).strip()]. -/
def normNotes (l : List PyVal) : List String :=
  l.filterMap (fun n => if pyStripStr (pyStr n) = "" then Option.none else some (pyStr n))

/-- Translation of sentinel/curator.py run_curator after the model call:
no parsed JSON object, a non-dict value, or a falsy (empty) dict produce
the fallback; otherwise fields are defaulted and candidates normalized. -/
def run_curator (parsed : Option PyVal) : CuratorResult :=
  match parsed with
  | some (.dict d) =>
    if d.isEmpty then curatorFallback
    else
      CuratorResult.mk
        (pyStripStr (pyStr (pyOrElse (pyGet d "clean_text" (.str "")) (.str ""))))
        ((pyValAsList (pyOrElse (pyGet d "candidates" (.list [])) (.list []))).filterMap
          normCandidate)
        (normNotes (pyValAsList (pyOrElse (pyGet d "notes" (.list [])) (.list []))))
  | _ => curatorFallback

/-- Normalized enricher relation dict. -/
structure Relation where
  subj : String
  rel : String
  obj : String
  confidence : ℚ
  derived : Bool
deriving DecidableEq, Repr

/-- Result record of run_enricher; entities are kept as raw values exactly
as the source keeps the raw entity dicts. -/
structure EnricherResult where
  entities : List PyVal
  relations : List Relation
  notes : List String

/-- Fallback EnricherResult for unparseable model output. -/
def enricherFallback : EnricherResult :=
  EnricherResult.mk [] [] ["Enricher output was not valid JSON."]

/-- Relation normalization loop body of run_enricher: non-dict entries and
entries with an empty subject, relation or object are skipped; confidence
is clamped with the 0.8 default and derived defaults to true. -/
def normRelation (r : PyVal) : Option Relation :=
  match r with
  | .dict rd =>
    let subj := pyStripStr (pyStr (pyGet rd "subj" (.str "")))
    let rel := pyStripStr (pyStr (pyGet rd "rel" (.str "")))
    let objv := pyStripStr (pyStr (pyGet rd "obj" (.str "")))
    if subj = "" ∨ rel = "" ∨ objv = "" then Option.none
    else some (Relation.mk subj rel objv
      (clampConf (pyGet rd "confidence" (.num (4 / 5))))
      (pyTruthy (pyGet rd "derived" (.bool true))))
  | _ => Option.none

/-- Translation of sentinel/enricher.py run_enricher after the model call. -/
def run_enricher (parsed : Option PyVal) : EnricherResult :=
  match parsed with
  | some (.dict d) =>
    if d.isEmpty then enricherFallback
    else
      EnricherResult.mk
        (pyValAsList (pyGet d "entities" (.list [])))
        ((pyValAsList (pyGet d "relations" (.list []))).filterMap normRelation)
        (normNotes (pyValAsList (pyGet d "notes" (.list []))))
  | _ => enricherFallback

theorem clampConf_bounds (v : PyVal) : 0 ≤ clampConf v ∧ clampConf v ≤ 1 := by
  rw [clampConf, ratMax]
  split
  · exact ⟨le_refl 0, by norm_num⟩
  · rename_i h
    refine ⟨le_of_not_le h, ?_⟩
    rw [ratMin]
    split
    · rename_i h2; exact h2
    · exact le_refl 1

theorem normCandidate_confidence {x : PyVal} {c : Candidate}
    (h : normCandidate x = some c) : ∃ v, c.confidence = clampConf v := by
  cases x with
  | dict cd =>
    rw [normCandidate] at h
    split at h
    · exact absurd h (by simp)
    · exact ⟨_, by rw [← Option.some_inj.mp h]⟩
  | none => exact absurd h (by simp [normCandidate])
  | bool b => exact absurd h (by simp [normCandidate])
  | num q => exact absurd h (by simp [normCandidate])
  | str s => exact absurd h (by simp [normCandidate])
  | list l => exact absurd h (by simp [normCandidate])

theorem normRelation_confidence {x : PyVal} {r : Relation}
    (h : normRelation x = some r) : ∃ v, r.confidence = clampConf v := by
  cases x with
  | dict rd =>
    rw [normRelation] at h
    split at h
    · exact absurd h (by simp)
    · exact ⟨_, by rw [← Option.some_inj.mp h]⟩
  | none => exact absurd h (by simp [normRelation])
  | bool b => exact absurd h (by simp [normRelation])
  | num q => exact absurd h (by simp [normRelation])
  | str s => exact absurd h (by simp [normRelation])
  | list l => exact absurd h (by simp [normRelation])

/-- C7 counterexample: a curator candidate entry lacking a relation key is
not skipped; run_curator substitutes the default relation "FACT" and keeps
the entry. -/
theorem run_curator_keeps_entry_without_relation :
    ((run_curator (some (.dict [("candidates",
        .list [.dict [("obj", PyVal.str "x")]])]))).candidates.map
      (fun c => (c.subj, c.rel, c.obj)))
      = [("USER", "FACT", "x")] ∧
    (run_curator (some (.dict [("candidates",
        .list [.dict [("obj", PyVal.str "x")]])]))).candidates ≠ [] := by
  constructor
  · decide
  · decide

/-- C7 amended: run_curator and run_enricher tolerate malformed model
output. An unparsed or non-dict response yields the fallback with an
explanatory note; non-dict candidate or relation entries are skipped; a
candidate with an empty object is skipped and an enricher relation with an
empty subject, relation, or object is skipped (run_curator instead
substitutes defaults USER and FACT for a missing subject or relation);
every accepted confidence is clamped into [0,1], and a missing confidence
key yields the 0.8 default. -/
theorem curator_enricher_tolerance :
    run_curator Option.none = curatorFallback ∧
    run_enricher Option.none = enricherFallback ∧
    (∀ v : PyVal, (∀ dd, v ≠ .dict dd) →
      run_curator (some v) = curatorFallback ∧
      run_enricher (some v) = enricherFallback) ∧
    (∀ p, ∀ c ∈ (run_curator p).candidates,
      0 ≤ c.confidence ∧ c.confidence ≤ 1) ∧
    (∀ p, ∀ r ∈ (run_enricher p).relations,
      0 ≤ r.confidence ∧ r.confidence ≤ 1) ∧
    (∀ v : PyVal, (∀ dd, v ≠ .dict dd) →
      normCandidate v = Option.none ∧ normRelation v = Option.none) ∧
    (∀ cd, pyStripStr (pyStr (pyGet cd "obj" (.str ""))) = "" →
      normCandidate (.dict cd) = Option.none) ∧
    (∀ rd, pyStripStr (pyStr (pyGet rd "subj" (.str ""))) = "" ∨
        pyStripStr (pyStr (pyGet rd "rel" (.str ""))) = "" ∨
        pyStripStr (pyStr (pyGet rd "obj" (.str ""))) = "" →
      normRelation (.dict rd) = Option.none) ∧
    (∀ cd c, cd.find? (fun kv => kv.1 == "rel") = Option.none →
      normCandidate (.dict cd) = some c → c.rel = "FACT") ∧
    (∀ cd c, cd.find? (fun kv => kv.1 == "confidence") = Option.none →
      normCandidate (.dict cd) = some c → c.confidence = 4 / 5) := by
  refine ⟨rfl, rfl, ?_, ?_, ?_, ?_, ?_, ?_, ?_, ?_⟩
  · intro v hv
    cases v with
    | dict dd => exact absurd rfl (hv dd)
    | none => exact ⟨rfl, rfl⟩
    | bool b => exact ⟨rfl, rfl⟩
    | num q => exact ⟨rfl, rfl⟩
    | str s => exact ⟨rfl, rfl⟩
    | list l => exact ⟨rfl, rfl⟩
  · intro p c hc
    have hshape : ∃ v, c.confidence = clampConf v := by
      cases p with
      | none => exact absurd hc (by simp [run_curator, curatorFallback])
      | some v =>
        cases v with
        | dict d =>
          rw [run_curator] at hc
          split at hc
          · exact absurd hc (by simp [curatorFallback])
          · simp only [List.mem_filterMap] at hc
            rcases hc with ⟨x, _, hx⟩
            exact normCandidate_confidence hx
        | none => exact absurd hc (by simp [run_curator, curatorFallback])
        | bool b => exact absurd hc (by simp [run_curator, curatorFallback])
        | num q => exact absurd hc (by simp [run_curator, curatorFallback])
        | str s => exact absurd hc (by simp [run_curator, curatorFallback])
        | list l => exact absurd hc (by simp [run_curator, curatorFallback])
    rcases hshape with ⟨v, hv⟩
    rw [hv]
    exact clampConf_bounds v
  · intro p r hr
    have hshape : ∃ v, r.confidence = clampConf v := by
      cases p with
      | none => exact absurd hr (by simp [run_enricher, enricherFallback])
      | some v =>
        cases v with
        | dict d =>
          rw [run_enricher] at hr
          split at hr
          · exact absurd hr (by simp [enricherFallback])
          · simp only [List.mem_filterMap] at hr
            rcases hr with ⟨x, _, hx⟩
            exact normRelation_confidence hx
        | none => exact absurd hr (by simp [run_enricher, enricherFallback])
        | bool b => exact absurd hr (by simp [run_enricher, enricherFallback])
        | num q => exact absurd hr (by simp [run_enricher, enricherFallback])
        | str s => exact absurd hr (by simp [run_enricher, enricherFallback])
        | list l => exact absurd hr (by simp [run_enricher, enricherFallback])
    rcases hshape with ⟨v, hv⟩
    rw [hv]
    exact clampConf_bounds v
  · intro v hv
    cases v with
    | dict dd => exact absurd rfl (hv dd)
    | none => exact ⟨rfl, rfl⟩
    | bool b => exact ⟨rfl, rfl⟩
    | num q => exact ⟨rfl, rfl⟩
    | str s => exact ⟨rfl, rfl⟩
    | list l => exact ⟨rfl, rfl⟩
  · intro cd hobj
    rw [normCandidate]
    rw [if_pos (Or.inr hobj)]
  · intro rd h
    rw [normRelation]
    rcases h with h | h | h
    · rw [if_pos (Or.inl h)]
    · rw [if_pos (Or.inr (Or.inl h))]
    · rw [if_pos (Or.inr (Or.inr h))]
  · intro cd c hfind h
    rw [normCandidate] at h
    split at h
    · exact absurd h (by simp)
    · have hget : pyGet cd "rel" (.str "FACT") = .str "FACT" := by
        rw [pyGet, hfind]
      rw [hget] at h
      have := Option.some_inj.mp h
      rw [← this]
      exact (by decide : pyStripStr (pyStr (PyVal.str "FACT")) = "FACT")
  · intro cd c hfind h
    rw [normCandidate] at h
    split at h
    · exact absurd h (by simp)
    · have hget : pyGet cd "confidence" (.num (4 / 5)) = .num (4 / 5) := by
        rw [pyGet, hfind]
      rw [hget] at h
      have := Option.some_inj.mp h
      rw [← this]
      show clampConf (.num (4 / 5)) = 4 / 5
      rw [clampConf]
      norm_num [pyFloat, ratMax, ratMin]

/-- C7 witness: concrete malformed entries through
curator_enricher_tolerance: a bare-string entry is skipped, and the
rel-less candidate from the counterexample gets relation "FACT". -/
theorem curator_enricher_tolerance_witness :
    normCandidate (PyVal.str "oops") = Option.none ∧
    (Candidate.mk "USER" "FACT" "x"
      (clampConf (pyGet [("obj", PyVal.str "x")] "confidence"
        (PyVal.num (4 / 5))))).rel = "FACT" :=
  ⟨(curator_enricher_tolerance.2.2.2.2.2.1 (PyVal.str "oops")
      (fun dd => by simp)).1,
   curator_enricher_tolerance.2.2.2.2.2.2.2.2.1 [("obj", PyVal.str "x")]
     (Candidate.mk "USER" "FACT" "x"
       (clampConf (pyGet [("obj", PyVal.str "x")] "confidence"
         (PyVal.num (4 / 5))))) rfl rfl⟩

/-! ## Triplet Builder: sentinel/enricher.py build_triplets_from_enricher.
The SHA-1 hex digest used by _stable_entity_id comes from the external
hashlib library and is modelled as a function parameter. -/

/-- Fact triple as produced by the Triplet Builder (sentinel/extract.py
Triplet dataclass). -/
structure Triplet where
  subj : String
  rel : String
  obj : String
deriving DecidableEq, Repr

/-- Translation of sentinel/enricher.py _stable_entity_id: a stable id from
the lowercased type:label digest prefix, passed through norm. -/
def _stable_entity_id (sha1hex : String → String) (etype label : String) : String :=
  norm (pyLowerStr etype ++ "_" ++ label ++ "_" ++
    ⟨(sha1hex (pyLowerStr (pyStripStr (etype ++ ":" ++ label)))).data.take 10⟩)

/-- Entity-key table of build_triplets_from_enricher: the fold over
enricher.entities building key_to_node, later assignments overwriting
earlier ones as in a Python dict. -/
def keyToNodeOf (sha1hex : String → String) (entities : List PyVal) :
    String → Option String :=
  entities.foldl (fun m e =>
    match e with
    | .dict ed =>
      let key := pyStripStr (pyStr (pyGet ed "key" (.str "")))
      let label := pyStripStr (pyStr (pyGet ed "label" (.str "")))
      let etype := pyUpperStr (pyStripStr (pyStr (pyGet ed "type" (.str "OTHER"))))
      if key = "" ∨ label = "" then m
      else fun x => if x = key then some (_stable_entity_id sha1hex etype label) else m x
    | _ => m) (fun _ => Option.none)

/-- Translation of the nested map_node of build_triplets_from_enricher:
USER maps to the canonical user id, known entity keys to their stable ids,
anything else through norm. -/
def map_node (keyToNode : String → Option String) (user_canonical_id x : String) :
    String :=
  let x1 := pyStripStr x
  if pyUpperStr x1 = "USER" then norm user_canonical_id
  else
    match keyToNode x1 with
    | some n => n
    | Option.none => norm x1

/-- Order-preserving deduplication with a seen set, the final loop of
build_triplets_from_enricher (and of to_triplets). -/
def dedupAux (seen : List Triplet) : List Triplet → List Triplet
  | [] => []
  | t :: rest =>
    if seen.contains t then dedupAux seen rest
    else t :: dedupAux (t :: seen) rest

/-- Translation of sentinel/enricher.py build_triplets_from_enricher:
entity keys get stable ids, relation endpoints are resolved through
map_node, the relation label through normalize_relation, empty endpoints
and self-loops are dropped, and the result is deduplicated preserving
order. There is no comma-splitting step. -/
def build_triplets_from_enricher (sha1hex : String → String)
    (enricher : EnricherResult) (user_canonical_id : String) : List Triplet :=
  let keyToNode := keyToNodeOf sha1hex enricher.entities
  let out := enricher.relations.filterMap (fun r =>
    let subj := map_node keyToNode user_canonical_id r.subj
    let rel := normalize_relation r.rel
    let objv := map_node keyToNode user_canonical_id r.obj
    if subj = "" ∨ objv = "" then Option.none
    else if subj = objv then Option.none
    else some (Triplet.mk subj rel objv))
  dedupAux [] out

/-- C2 counterexample: the Scenario 1 input. The builder does not split
"Melbourne, Australia": it emits the single fact
user -[LIVES_IN]-> Melbourne__Australia (norm maps the comma and the space
each to an underscore), not the two claimed facts. -/
theorem build_triplets_no_comma_split :
    build_triplets_from_enricher (fun _ => "")
      (EnricherResult.mk []
        [Relation.mk "USER" "LIVES_IN" "Melbourne, Australia" (9 / 10) true] [])
      "user"
      = [Triplet.mk "user" "LIVES_IN" "Melbourne__Australia"] ∧
    build_triplets_from_enricher (fun _ => "")
      (EnricherResult.mk []
        [Relation.mk "USER" "LIVES_IN" "Melbourne, Australia" (9 / 10) true] [])
      "user"
      ≠ [Triplet.mk "user" "LIVES_IN" "melbourne",
         Triplet.mk "melbourne" "LOCATED_IN" "australia"] := by
  constructor
  · decide
  · decide

theorem map_node_empty_ne (uid x : String) :
    map_node (fun _ => Option.none) uid x ≠ "" := by
  rw [map_node]
  split
  · intro h
    exact normChars_ne_nil uid.data (by simpa [norm, String.ext_iff] using h)
  · intro h
    exact normChars_ne_nil (pyStripStr x).data (by simpa [norm, String.ext_iff] using h)

/-- C2 amended: for any single Structurer relation and any hash function,
build_triplets_from_enricher emits exactly one fact whose endpoints go
through map_node and whose label goes through normalize_relation — composite
objects are not split at commas; the comma simply becomes part of the
normalized object identifier. Splitting place strings is delegated to the
language-model Enricher prompt, not done by the builder. -/
theorem build_triplets_single_relation (sha1hex : String → String)
    (uid subj rel obj : String) (conf : ℚ) (dv : Bool)
    (h : map_node (fun _ => Option.none) uid subj ≠
      map_node (fun _ => Option.none) uid obj) :
    build_triplets_from_enricher sha1hex
      (EnricherResult.mk [] [Relation.mk subj rel obj conf dv] []) uid
      = [Triplet.mk (map_node (fun _ => Option.none) uid subj)
          (normalize_relation rel)
          (map_node (fun _ => Option.none) uid obj)] := by
  have hkey : keyToNodeOf sha1hex ([] : List PyVal) = (fun _ => Option.none) := rfl
  rw [build_triplets_from_enricher]
  simp only [hkey, List.filterMap]
  rw [if_neg (by
    intro hor
    rcases hor with h1 | h1
    · exact map_node_empty_ne uid subj h1
    · exact map_node_empty_ne uid obj h1)]
  rw [if_neg h]
  rfl

/-- C2 witness: the amended single-fact theorem at the Scenario 1 input. -/
theorem build_triplets_single_relation_witness :
    build_triplets_from_enricher (fun _ => "")
      (EnricherResult.mk []
        [Relation.mk "USER" "LIVES_IN" "Melbourne, Australia" (9 / 10) true] [])
      "user"
      = [Triplet.mk
          (map_node (fun _ => Option.none) "user" "USER")
          (normalize_relation "LIVES_IN")
          (map_node (fun _ => Option.none) "user" "Melbourne, Australia")] :=
  build_triplets_single_relation (fun _ => "") "user" "USER" "LIVES_IN"
    "Melbourne, Australia" (9 / 10) true (by decide)

/-! ## Temporal Query Engine: sentinel/utils.py detect_time_window.
Naive Python datetimes are modelled as an ordinal day (an integer) plus
hour, minute, second and microsecond fields; datetime.now() is an external
input and is passed explicitly. -/

/-- Naive datetime: ordinal date plus time of day. -/
structure PyDateTime where
  day : ℤ
  hour : Nat
  minute : Nat
  second : Nat
  usec : Nat
deriving DecidableEq, Repr

/-- Total microseconds, giving the standard linear order of naive
datetimes. -/
def dtScalar (d : PyDateTime) : ℤ :=
  (((d.day * 24 + d.hour) * 60 + d.minute) * 60 + d.second) * 1000000 + d.usec

/-- Comparison of naive datetimes. -/
def dtLe (a b : PyDateTime) : Bool := dtScalar a ≤ dtScalar b

/-- Strict comparison of naive datetimes. -/
def dtLt (a b : PyDateTime) : Bool := dtScalar a < dtScalar b

/-- Subtraction of timedelta(hours=1) on a datetime with hour ≤ 23. -/
def subOneHour (d : PyDateTime) : PyDateTime :=
  if 1 ≤ d.hour then { d with hour := d.hour - 1 }
  else { d with day := d.day - 1, hour := 23 }

/-- Addition of timedelta(hours=1) on a datetime with hour ≤ 23. -/
def addOneHour (d : PyDateTime) : PyDateTime :=
  if d.hour ≤ 22 then { d with hour := d.hour + 1 }
  else { d with day := d.day + 1, hour := 0 }

/-- Question preprocessing of detect_time_window:
question.lower().replace(".", ":"). -/
def pyProcessQ (question : String) : List Char :=
  question.data.map (fun c =>
    let c1 := pyToLower c
    if c1 = '.' then ':' else c1)

/-- Python substring containment, the operator w in q. -/
def isInfixB (w : String) (q : List Char) : Bool := decide (w.data <:+: q)

/-- Match of the optional regex group (?::(\d{2})) at the head of the
input: a colon followed by exactly two digits, returning the minutes and
the rest. -/
def tryColonMM : List Char → Option (Nat × List Char)
  | ':' :: a :: b :: rest =>
    if pyIsDigit a && pyIsDigit b then
      some ((a.toNat - 48) * 10 + (b.toNat - 48), rest)
    else Option.none
  | _ => Option.none

/-- Match of \s*(am|pm) at the head of the input: maximal whitespace munch
then the literal am or pm (false for am, true for pm); backtracking into
\s* can never help since neither literal starts with whitespace. -/
def trySpacesAmPm (l : List Char) : Option Bool :=
  match l.dropWhile pyIsSpace with
  | 'a' :: 'm' :: _ => some false
  | 'p' :: 'm' :: _ => some true
  | _ => Option.none

/-- Continuation of the hour regex after the digits: greedy optional
minutes group with backtracking, then \s*(am|pm). -/
def tryFromDigits (h : Nat) (rest : List Char) : Option (Nat × Option Nat × Bool) :=
  match tryColonMM rest with
  | some (mm, rest2) =>
    match trySpacesAmPm rest2 with
    | some pm => some (h, some mm, pm)
    | Option.none =>
      match trySpacesAmPm rest with
      | some pm => some (h, Option.none, pm)
      | Option.none => Option.none
  | Option.none =>
    match trySpacesAmPm rest with
    | some pm => some (h, Option.none, pm)
    | Option.none => Option.none

/-- Anchored attempt of the regex (\d{1,2})(?::(\d{2}))?\s*(am|pm): greedy
two-digit hour first, backtracking to one digit. -/
def matchHourAt : List Char → Option (Nat × Option Nat × Bool)
  | [] => Option.none
  | c :: rest =>
    if pyIsDigit c then
      match rest with
      | c2 :: rest2 =>
        if pyIsDigit c2 then
          match tryFromDigits ((c.toNat - 48) * 10 + (c2.toNat - 48)) rest2 with
          | some r => some r
          | Option.none => tryFromDigits (c.toNat - 48) rest
        else tryFromDigits (c.toNat - 48) rest
      | [] => tryFromDigits (c.toNat - 48) []
    else Option.none

/-- Translation of re.search for the hour regex: leftmost anchored match. -/
def hourSearch : List Char → Option (Nat × Option Nat × Bool)
  | [] => Option.none
  | c :: rest =>
    match matchHourAt (c :: rest) with
    | some r => some r
    | Option.none => hourSearch rest

/-- Clamped explicit hour and minute of detect_time_window: the am/pm
arithmetic followed by min/max clamping. -/
def explicitHourMin (hm : Option (Nat × Option Nat × Bool)) : Option (Nat × Nat) :=
  match hm with
  | some (h0, mOpt, pm) =>
    let em := match mOpt with
      | some m => min (max m 0) 59
      | Option.none => 0
    let h1 := if pm && decide (h0 ≠ 12) then h0 + 12 else h0
    let h2 := if !pm && decide (h1 = 12) then 0 else h1
    some (min (max h2 0) 23, em)
  | Option.none => Option.none

/-- Translation of sentinel/utils.py detect_time_window. The day words
anchor a base date; an explicit clock time yields a two-hour window
clamped to the day (day_start + 1 day - 1 microsecond is written out as
23:59:59.999999); day-part words yield their fixed windows; a bare day
word yields the full day; otherwise None. -/
def detect_time_window (question : String) (now : PyDateTime) :
    Option (PyDateTime × PyDateTime) :=
  let q := pyProcessQ question
  let base0 : Option ℤ :=
    if isInfixB "yesterday" q then some (now.day - 1)
    else if isInfixB "today" q then some now.day
    else Option.none
  let explicitHM := explicitHourMin (hourSearch q)
  let morning := isInfixB "morning" q
  let afternoon := isInfixB "afternoon" q
  let evening := isInfixB "evening" q
  let night := isInfixB "night" q
  let base1 : Option ℤ :=
    match base0 with
    | some d => some d
    | Option.none =>
      if morning || afternoon || evening || night then some now.day else Option.none
  let base2 : Option ℤ :=
    match base1 with
    | some d => some d
    | Option.none => if explicitHM.isSome then some now.day else Option.none
  match base2 with
  | Option.none => Option.none
  | some bd =>
    match explicitHM with
    | some (eh, em) =>
      let center := PyDateTime.mk bd eh em 0 0
      let start := subOneHour center
      let stop := addOneHour center
      let dayStart := PyDateTime.mk bd 0 0 0 0
      let dayStop := PyDateTime.mk bd 23 59 59 999999
      some ((if dtLt start dayStart then dayStart else start),
            (if dtLt dayStop stop then dayStop else stop))
    | Option.none =>
      if morning then
        some (PyDateTime.mk bd 5 0 0 0, PyDateTime.mk bd 12 0 0 0)
      else if afternoon then
        some (PyDateTime.mk bd 12 0 0 0, PyDateTime.mk bd 18 0 0 0)
      else if evening || night then
        some (PyDateTime.mk bd 18 0 0 0, PyDateTime.mk bd 23 59 59 999999)
      else
        some (PyDateTime.mk bd 0 0 0 0, PyDateTime.mk bd 23 59 59 999999)

/-- Base date the day-part windows anchor to: yesterday's date, today's
date, or (when no day word occurs) the current date. -/
def dayAnchor (question : String) (now : PyDateTime) : ℤ :=
  if isInfixB "yesterday" (pyProcessQ question) then now.day - 1
  else if isInfixB "today" (pyProcessQ question) then now.day
  else now.day

/-- Normal form of detect_time_window when the question contains no
explicit clock time: day-part windows on the anchored date, a full-day
window for a bare day word, None without any cue. -/
theorem detect_time_window_no_clock (question : String) (now : PyDateTime)
    (hns : hourSearch (pyProcessQ question) = Option.none) :
    detect_time_window question now =
      (if isInfixB "morning" (pyProcessQ question) then
        some (PyDateTime.mk (dayAnchor question now) 5 0 0 0,
              PyDateTime.mk (dayAnchor question now) 12 0 0 0)
      else if isInfixB "afternoon" (pyProcessQ question) then
        some (PyDateTime.mk (dayAnchor question now) 12 0 0 0,
              PyDateTime.mk (dayAnchor question now) 18 0 0 0)
      else if isInfixB "evening" (pyProcessQ question) ||
          isInfixB "night" (pyProcessQ question) then
        some (PyDateTime.mk (dayAnchor question now) 18 0 0 0,
              PyDateTime.mk (dayAnchor question now) 23 59 59 999999)
      else if isInfixB "yesterday" (pyProcessQ question) ||
          isInfixB "today" (pyProcessQ question) then
        some (PyDateTime.mk (dayAnchor question now) 0 0 0 0,
              PyDateTime.mk (dayAnchor question now) 23 59 59 999999)
      else Option.none) := by
  rw [detect_time_window]
  simp only [hns]
  by_cases hy : isInfixB "yesterday" (pyProcessQ question) = true <;>
  by_cases ht : isInfixB "today" (pyProcessQ question) = true <;>
  by_cases hm : isInfixB "morning" (pyProcessQ question) = true <;>
  by_cases ha : isInfixB "afternoon" (pyProcessQ question) = true <;>
  by_cases he : isInfixB "evening" (pyProcessQ question) = true <;>
  by_cases hn : isInfixB "night" (pyProcessQ question) = true <;>
    simp [dayAnchor, hy, ht, hm, ha, he, hn, explicitHourMin]

/-- C8: with no explicit clock time, "yesterday ... afternoon" yields the
window from yesterday 12:00:00 to yesterday 18:00:00; in general morning,
afternoon and evening/night produce the fixed windows 05:00-12:00,
12:00-18:00 and 18:00-23:59:59.999999 on the anchored base date (with the
precedence of the source: morning first, then afternoon, then
evening/night); and with no day word, no day-part word and no clock time
the result is None. -/
theorem detect_time_window_dayparts (question : String) (now : PyDateTime) :
    hourSearch (pyProcessQ question) = Option.none →
    ((isInfixB "yesterday" (pyProcessQ question) = true →
      isInfixB "afternoon" (pyProcessQ question) = true →
      isInfixB "morning" (pyProcessQ question) = false →
      detect_time_window question now =
        some (PyDateTime.mk (now.day - 1) 12 0 0 0,
              PyDateTime.mk (now.day - 1) 18 0 0 0)) ∧
    (isInfixB "morning" (pyProcessQ question) = true →
      detect_time_window question now =
        some (PyDateTime.mk (dayAnchor question now) 5 0 0 0,
              PyDateTime.mk (dayAnchor question now) 12 0 0 0)) ∧
    (isInfixB "morning" (pyProcessQ question) = false →
      isInfixB "afternoon" (pyProcessQ question) = true →
      detect_time_window question now =
        some (PyDateTime.mk (dayAnchor question now) 12 0 0 0,
              PyDateTime.mk (dayAnchor question now) 18 0 0 0)) ∧
    (isInfixB "morning" (pyProcessQ question) = false →
      isInfixB "afternoon" (pyProcessQ question) = false →
      (isInfixB "evening" (pyProcessQ question) = true ∨
        isInfixB "night" (pyProcessQ question) = true) →
      detect_time_window question now =
        some (PyDateTime.mk (dayAnchor question now) 18 0 0 0,
              PyDateTime.mk (dayAnchor question now) 23 59 59 999999)) ∧
    (isInfixB "yesterday" (pyProcessQ question) = false →
      isInfixB "today" (pyProcessQ question) = false →
      isInfixB "morning" (pyProcessQ question) = false →
      isInfixB "afternoon" (pyProcessQ question) = false →
      isInfixB "evening" (pyProcessQ question) = false →
      isInfixB "night" (pyProcessQ question) = false →
      detect_time_window question now = Option.none)) := by
  intro hns
  refine ⟨?_, ?_, ?_, ?_, ?_⟩
  · intro hy ha hm
    rw [detect_time_window_no_clock question now hns]
    simp [hy, ha, hm, dayAnchor]
  · intro hm
    rw [detect_time_window_no_clock question now hns]
    simp [hm]
  · intro hm ha
    rw [detect_time_window_no_clock question now hns]
    simp [hm, ha]
  · intro hm ha hen
    rw [detect_time_window_no_clock question now hns]
    rcases hen with he | hn
    · simp [hm, ha, he]
    · simp [hm, ha, hn]
  · intro hy ht hm ha he hn
    rw [detect_time_window_no_clock question now hns]
    simp [hy, ht, hm, ha, he, hn]

/-- C8 witness: the Scenario 3 question at a fixed now, through
detect_time_window_dayparts. -/
theorem detect_time_window_dayparts_witness :
    detect_time_window "what was I doing yesterday afternoon"
      (PyDateTime.mk 1000 9 30 0 0) =
      some (PyDateTime.mk 999 12 0 0 0, PyDateTime.mk 999 18 0 0 0) :=
  (detect_time_window_dayparts "what was I doing yesterday afternoon"
    (PyDateTime.mk 1000 9 30 0 0) (by decide)).1 (by decide) (by decide) (by decide)

/-! ## Temporal Query Engine: sentinel/kg_qa.py run_kg_qa evidence
preparation. The store read, datetime.fromisoformat (parse_iso_ts) and the
current time are external and passed as inputs; the final ChatAgent answer
synthesis consumes the prepared evidence and is outside the embedding. -/

/-- Stored fact row as returned by the graph store, with its optional
timestamp attribute. -/
structure TripRow where
  subj : String
  rel : String
  obj : String
  timestamp : Option String
deriving DecidableEq, Repr

/-- Sort key of run_kg_qa: t.get("timestamp", ""). -/
def rowKey (t : TripRow) : String := t.timestamp.getD ""

/-- Parsed timestamp of a row: dt = parse_iso_ts(ts) if ts else None. -/
def rowParsedTs (parseIso : String → Option PyDateTime) (t : TripRow) :
    Option PyDateTime :=
  match t.timestamp with
  | some ts => if ts ≠ "" then parseIso ts else Option.none
  | Option.none => Option.none

/-- Window filter of run_kg_qa: rows whose parsed timestamp lies inside the
detected window. -/
def windowFilter (parseIso : String → Option PyDateTime) (s e : PyDateTime)
    (triplets : List TripRow) : List TripRow :=
  triplets.filter (fun t =>
    match rowParsedTs parseIso t with
    | some dt => dtLe s dt && dtLe dt e
    | Option.none => false)

/-- Bool comparison of rows by timestamp key, the sorted(key=...) order. -/
def rowLe (a b : TripRow) : Bool := decide (rowKey a ≤ rowKey b)

/-- Ascending sort by timestamp key followed by truncation to the most
recent maxRecords rows (the [-max_records:] slice). -/
def sortTrunc (maxRecords : Nat) (l : List TripRow) : List TripRow :=
  let sorted := l.mergeSort rowLe
  if maxRecords < sorted.length then sorted.drop (sorted.length - maxRecords)
  else sorted

/-- Translation of the evidence preparation of sentinel/kg_qa.py run_kg_qa
(lines between the store read and the prompt construction): filter to the
detected window, fall back to the unfiltered list if the filtered list is
empty, sort ascending by timestamp, truncate to the last maxRecords. -/
def kgQaEvidence (parseIso : String → Option PyDateTime) (question : String)
    (now : PyDateTime) (triplets : List TripRow) (maxRecords : Nat) :
    List TripRow :=
  let chosen :=
    match detect_time_window question now with
    | some (s, e) =>
      let filtered := windowFilter parseIso s e triplets
      if filtered ≠ [] then filtered else triplets
    | Option.none => triplets
  sortTrunc maxRecords chosen

theorem sortTrunc_length (n : Nat) (l : List TripRow) :
    (sortTrunc n l).length = if n < l.length then n else l.length := by
  have hlen : (l.mergeSort rowLe).length = l.length := List.length_mergeSort l
  rw [sortTrunc, hlen]
  by_cases hc : n < l.length
  · rw [if_pos hc, if_pos hc, List.length_drop, hlen]
    omega
  · rw [if_neg hc, if_neg hc, hlen]

theorem sortTrunc_ne_nil {n : Nat} (hn : 0 < n) {l : List TripRow} (h : l ≠ []) :
    sortTrunc n l ≠ [] := by
  have hpos : 0 < l.length := List.length_pos.mpr h
  intro hcon
  have hl := congrArg List.length hcon
  rw [sortTrunc_length] at hl
  simp only [List.length_nil] at hl
  split at hl <;> omega

theorem sortTrunc_length_le (n : Nat) (l : List TripRow) :
    (sortTrunc n l).length ≤ n := by
  rw [sortTrunc_length]
  split <;> omega

theorem sortTrunc_sorted (n : Nat) (l : List TripRow) :
    (sortTrunc n l).Pairwise (fun a b => rowKey a ≤ rowKey b) := by
  have hs : (l.mergeSort rowLe).Pairwise (fun a b => rowLe a b) :=
    List.sorted_mergeSort
      (fun a b c hab hbc => by
        rw [rowLe, decide_eq_true_eq] at hab hbc ⊢
        exact le_trans hab hbc)
      (fun a b => by
        rw [rowLe, rowLe]
        rcases le_total (rowKey a) (rowKey b) with h | h
        · simp [h]
        · simp [h])
      l
  have hs2 : (l.mergeSort rowLe).Pairwise (fun a b => rowKey a ≤ rowKey b) :=
    hs.imp (fun hab => by rwa [rowLe, decide_eq_true_eq] at hab)
  rw [sortTrunc]
  split
  · exact hs2.sublist (List.drop_sublist _ _)
  · exact hs2

theorem mem_sortTrunc {n : Nat} {l : List TripRow} {t : TripRow}
    (h : t ∈ sortTrunc n l) : t ∈ l := by
  rw [sortTrunc] at h
  split at h
  · exact List.mem_mergeSort.mp ((List.drop_sublist _ _).subset h)
  · exact List.mem_mergeSort.mp h

/-- C9: in run_kg_qa, when a window is detected but no stored fact's parsed
timestamp lies within it, the evidence is computed from the full unfiltered
list; the evidence is never empty when the stored list is nonempty (with
the default max_records = 50); it is sorted ascending by timestamp key; it
has at most 50 rows (or all of them when fewer); and every evidence row is
a stored row. -/
theorem kg_qa_evidence_props (parseIso : String → Option PyDateTime)
    (question : String) (now : PyDateTime) (triplets : List TripRow) :
    (∀ s e, detect_time_window question now = some (s, e) →
      windowFilter parseIso s e triplets = [] →
      kgQaEvidence parseIso question now triplets 50 = sortTrunc 50 triplets) ∧
    (triplets ≠ [] → kgQaEvidence parseIso question now triplets 50 ≠ []) ∧
    (kgQaEvidence parseIso question now triplets 50).Pairwise
      (fun a b => rowKey a ≤ rowKey b) ∧
    (kgQaEvidence parseIso question now triplets 50).length ≤ 50 ∧
    (∀ t ∈ kgQaEvidence parseIso question now triplets 50, t ∈ triplets) := by
  refine ⟨?_, ?_, ?_, ?_, ?_⟩
  · intro s e hw hf
    rw [kgQaEvidence, hw]
    simp only [hf]
    rw [if_neg (by simp)]
  · intro hne
    rw [kgQaEvidence]
    rcases hw : detect_time_window question now with _ | ⟨s, e⟩
    · exact sortTrunc_ne_nil (by omega) hne
    · simp only []
      split
      · rename_i hfil
        exact sortTrunc_ne_nil (by omega) hfil
      · exact sortTrunc_ne_nil (by omega) hne
  · rw [kgQaEvidence]
    exact sortTrunc_sorted 50 _
  · rw [kgQaEvidence]
    rcases hw : detect_time_window question now with _ | ⟨s, e⟩
    · exact sortTrunc_length_le 50 triplets
    · simp only []
      split
      · exact sortTrunc_length_le 50 _
      · exact sortTrunc_length_le 50 triplets
  · intro t ht
    rw [kgQaEvidence] at ht
    rcases hw : detect_time_window question now with _ | ⟨s, e⟩ <;> rw [hw] at ht
    · exact mem_sortTrunc ht
    · simp only [] at ht
      split at ht
      · have h2 := mem_sortTrunc ht
        rw [windowFilter] at h2
        exact List.mem_of_mem_filter h2
      · exact mem_sortTrunc ht

/-- C9 witness: one stored fact whose timestamp does not parse, a question
with a detected window; the full list is used, and the evidence is
nonempty, through kg_qa_evidence_props. -/
theorem kg_qa_evidence_props_witness :
    kgQaEvidence (fun _ => Option.none) "what was I doing yesterday afternoon"
      (PyDateTime.mk 1000 9 30 0 0)
      [TripRow.mk "user" "LIVES_IN" "melbourne" (some "t1")] 50
      = sortTrunc 50 [TripRow.mk "user" "LIVES_IN" "melbourne" (some "t1")] ∧
    kgQaEvidence (fun _ => Option.none) "what was I doing yesterday afternoon"
      (PyDateTime.mk 1000 9 30 0 0)
      [TripRow.mk "user" "LIVES_IN" "melbourne" (some "t1")] 50 ≠ [] :=
  ⟨(kg_qa_evidence_props (fun _ => Option.none)
      "what was I doing yesterday afternoon" (PyDateTime.mk 1000 9 30 0 0)
      [TripRow.mk "user" "LIVES_IN" "melbourne" (some "t1")]).1
    (PyDateTime.mk 999 12 0 0 0) (PyDateTime.mk 999 18 0 0 0)
    (by decide) (by decide),
   (kg_qa_evidence_props (fun _ => Option.none)
      "what was I doing yesterday afternoon" (PyDateTime.mk 1000 9 30 0 0)
      [TripRow.mk "user" "LIVES_IN" "melbourne" (some "t1")]).2.1
    (by decide)⟩

end Sentinel
